import Mathlib

/-!
Verification development for the radb ADB client library.

The definitions below are a shallow embedding of the Rust sources:
  * src/protocols/mod.rs        (wire codec, status check, recv / read_exact)
  * src/beans/command.rs        (AdbCommand and its shell escaping)
  * src/client/adb_device.rs    (transport prefix, SYNC loops, pull, forwards)
  * src/client/adb_client.rs    (host-scope commands and their connection use)
  * src/utils/mod.rs            (get_free_port, modelled abstractly)

Bytes are modelled as Nat (values 0..255); a TCP connection is modelled from
the receiving side as the list of byte chunks the peer delivery makes
available to successive read() calls.  A single read() returns at most one
delivered chunk (this is the standard abstraction for "the peer delivers the
bytes across multiple reads").  read_exact loops until it has its count.
-/

namespace Radb

abbrev Bytes := List Nat

/-- One connection, seen from the read side: the chunks the peer delivers.
Each read() syscall returns bytes from the first chunk only; an empty list
means the peer has closed (EOF, read returns 0 bytes). -/
abbrev Conn := List Bytes

/-- UTF-8 encoding of one scalar value, as in Rust String::as_bytes. -/
def utf8Bytes (c : Char) : List Nat :=
  let n := c.toNat
  if n < 0x80 then [n]
  else if n < 0x800 then [0xC0 + n / 64, 0x80 + n % 64]
  else if n < 0x10000 then [0xE0 + n / 4096, 0x80 + n / 64 % 64, 0x80 + n % 64]
  else [0xF0 + n / 262144, 0x80 + n / 4096 % 64, 0x80 + n / 64 % 64, 0x80 + n % 64]

def bytesOfChars : List Char → Bytes
  | [] => []
  | c :: cs => utf8Bytes c ++ bytesOfChars cs

/-- Rust s.as_bytes() for a string s. -/
def strBytes (s : String) : Bytes := bytesOfChars s.data

/-- Decode of one byte by String::from_utf8_lossy, restricted to the ASCII
range; a non-ASCII byte standing alone decodes to U+FFFD. -/
def byteChar (b : Nat) : Char := if b < 128 then Char.ofNat b else Char.ofNat 0xFFFD

/-- Model of String::from_utf8_lossy.  Faithful on ASCII data (every claim
below is settled on ASCII wire data); a lone non-ASCII byte becomes U+FFFD. -/
def bytesToString (b : Bytes) : String := ⟨b.map byteChar⟩

def isAsciiStr (s : String) : Bool := s.data.all fun c => c.toNat < 128

/-- Total number of bytes still deliverable on a connection. -/
def totalLen : Conn → Nat
  | [] => 0
  | b :: rest => b.length + totalLen rest

/-- Flattened byte stream of a connection. -/
def flat (c : Conn) : Bytes := c.flatten

/-- One read() syscall asking for at most n bytes: returns bytes from the
first delivered chunk only (possibly fewer than n), or [] at EOF. -/
def readOnce (n : Nat) : Conn → Bytes × Conn
  | [] => ([], [])
  | chunk :: rest =>
      if chunk.length ≤ n then (chunk, rest)
      else (chunk.take n, chunk.drop n :: rest)

/-- Model of AdbProtocol::recv (blocking and tokio_async are identical): one
read() into a buffer of size n, returning the bytes actually read. -/
def recv (n : Nat) (c : Conn) : Bytes × Conn := readOnce n c

/-- Model of read_exact: loop read() until exactly n bytes are consumed;
fails (none) if the peer closes first. -/
def readExact : Nat → Conn → Option (Bytes × Conn)
  | 0, c => some ([], c)
  | _ + 1, [] => none
  | n + 1, chunk :: rest =>
      if chunk.length ≤ n + 1 then
        match readExact (n + 1 - chunk.length) rest with
        | none => none
        | some (b, c2) => some (chunk ++ b, c2)
      else
        some (chunk.take (n + 1), chunk.drop (n + 1) :: rest)

/-- Model of AdbProtocol::read_string: recv(size) then from_utf8_lossy
(blocking facade; the async facade pads, see read_string_async). -/
def read_string (n : Nat) (c : Conn) : String × Conn :=
  let r := recv n c
  (bytesToString r.1, r.2)

/-- Model of the tokio_async AdbProtocol::read_string: it lossy-decodes the
whole n-byte buffer, so a short read leaves NUL padding in the result. -/
def read_string_async (n : Nat) (c : Conn) : String × Conn :=
  let r := recv n c
  (bytesToString (r.1 ++ List.replicate (n - r.1.length) 0), r.2)

/-- Error type mirroring src/errors.rs (the variants the claims touch). -/
inductive AdbError where
  | ConnectionFailed (message : String)
  | DeviceNotFound (serial : String)
  | CommandFailed (command : String) (reason : String)
  | ProtocolError (message : String)
  | ParseError (message : String)
  | NetworkError (message : String)
  | IoErr (message : String)
  | Unknown (message : String)
  deriving Repr, DecidableEq

/-- Decidable equality for Except results, so concrete runs can be checked
by decide. -/
instance {e a : Type} [DecidableEq e] [DecidableEq a] :
    DecidableEq (Except e a) := fun x y =>
  match x, y with
  | .ok v, .ok w => if h : v = w then isTrue (by rw [h]) else isFalse (by simp [h])
  | .error v, .error w =>
      if h : v = w then isTrue (by rw [h]) else isFalse (by simp [h])
  | .ok _, .error _ => isFalse (by simp)
  | .error _, .ok _ => isFalse (by simp)

/-- Hex value of one ASCII character, as in Rust from_str_radix(16). -/
def hexVal (c : Char) : Option Nat :=
  if '0' ≤ c ∧ c ≤ '9' then some (c.toNat - 48)
  else if 'a' ≤ c ∧ c ≤ 'f' then some (c.toNat - 87)
  else if 'A' ≤ c ∧ c ≤ 'F' then some (c.toNat - 55)
  else none

def parseHexCore : List Char → Nat → Option Nat
  | [], acc => some acc
  | c :: rest, acc =>
      match hexVal c with
      | some v => parseHexCore rest (acc * 16 + v)
      | none => none

/-- Model of usize::from_str_radix(s, 16): optional leading sign, then at
least one hex digit. -/
def parseRadix16 (s : String) : Option Nat :=
  match s.data with
  | [] => none
  | '+' :: rest => if rest.isEmpty then none else parseHexCore rest 0
  | l => parseHexCore l 0

/-- Model of protocol_logic::parse_length_prefix (source name
parse_length_prefix): lossy-decode the first 4 bytes and parse them as hex. -/
def parse_length_prefixFn (data : Bytes) : Except AdbError Nat :=
  if data.length < 4 then .error (.ProtocolError "Invalid length prefix")
  else
    match parseRadix16 (bytesToString (data.take 4)) with
    | some n => .ok n
    | none => .error (.ProtocolError "Invalid length ")

def hexDigitChar (n : Nat) : Char :=
  if n < 10 then Char.ofNat (48 + n) else Char.ofNat (87 + n)

def hexCore (n : Nat) : List Char :=
  if n = 0 then []
  else hexCore (n / 16) ++ [hexDigitChar (n % 16)]
decreasing_by exact Nat.div_lt_self (Nat.pos_of_ne_zero (by assumption)) (by norm_num)

/-- Rust format string 04x: lowercase hex, zero padded to at least width 4. -/
def hex4 (n : Nat) : String :=
  let d := if n = 0 then ['0'] else hexCore n
  ⟨List.replicate (4 - d.length) '0' ++ d⟩

/-- Model of protocol_logic::build_command_packet. -/
def build_command_packet (command : String) : Bytes :=
  strBytes (hex4 (strBytes command).length) ++ strBytes command

/-- Model of the blocking AdbProtocol::read_response: recv(4) (a single
read), parse as hex (a parse failure is wrapped as an I/O error), then
read_exact that many bytes, lossy-decoded. -/
def read_response (c : Conn) : Except AdbError (String × Conn) :=
  let r := recv 4 c
  match parse_length_prefixFn r.1 with
  | .error _ => .error (.IoErr "Invalid length")
  | .ok len =>
      match readExact len r.2 with
      | none => .error (.IoErr "failed to fill whole buffer")
      | some (b, c2) => .ok (bytesToString b, c2)

/-- Model of the tokio_async AdbProtocol::read_response: read_exact(4) for
the length (unlike the blocking facade), then read_exact(len). -/
def read_response_async (c : Conn) : Except AdbError (String × Conn) :=
  match readExact 4 c with
  | none => .error (.IoErr "failed to fill whole buffer")
  | some (lenB, c1) =>
      match parse_length_prefixFn lenB with
      | .error _ => .error (.IoErr "Invalid length")
      | .ok len =>
          match readExact len c1 with
          | none => .error (.IoErr "failed to fill whole buffer")
          | some (b, c2) => .ok (bytesToString b, c2)

/-- Model of the blocking AdbProtocol::send_cmd_then_check_okay, receive
side: read_exact 4 status bytes; OKAY succeeds; FAIL reads one
length-prefixed message and returns NetworkError with it; anything else is
ParseError "Unexpected response". -/
def send_cmd_then_check_okay (command : String) (c : Conn) : Except AdbError Conn :=
  let _ := build_command_packet command
  match readExact 4 c with
  | none => .error (.IoErr "failed to fill whole buffer")
  | some (resp, c1) =>
      if resp = strBytes "OKAY" then .ok c1
      else if resp = strBytes "FAIL" then
        match read_response c1 with
        | .ok (msg, _) => .error (.NetworkError msg)
        | .error e => .error e
      else .error (.ParseError "Unexpected response")

/-- Model of the tokio_async AdbProtocol::send_cmd_then_check_okay: same
reads, but FAIL maps to CommandFailed(command, message) and any other status
maps to CommandFailed(command, "Unexpected response"). -/
def send_cmd_then_check_okay_async (command : String) (c : Conn) : Except AdbError Conn :=
  let _ := build_command_packet command
  match readExact 4 c with
  | none => .error (.IoErr "failed to fill whole buffer")
  | some (resp, c1) =>
      if resp = strBytes "OKAY" then .ok c1
      else if resp = strBytes "FAIL" then
        match read_response_async c1 with
        | .ok (msg, _) => .error (.CommandFailed command msg)
        | .error e => .error e
      else .error (.CommandFailed command "Unexpected response")

/-! Shell escaping (src/beans/command.rs and src/client/adb_device.rs). -/

/-- Double-quote character. -/
def qCh : Char := Char.ofNat 34

/-- Backslash character. -/
def bsCh : Char := Char.ofNat 92

/-- Single-quote character. -/
def sqCh : Char := Char.ofNat 39

/-- Backtick character. -/
def btCh : Char := Char.ofNat 96

/-- Opening curly brace character. -/
def obCh : Char := Char.ofNat 123

/-- Closing curly brace character. -/
def cbCh : Char := Char.ofNat 125

/-- Characters that trigger quoting in shell_escape_arg
(src/beans/command.rs): space, double quote, single quote, backslash, tab,
newline, carriage return. -/
def escSpecialChar (c : Char) : Bool :=
  c = ' ' || c = qCh || c = sqCh || c = bsCh || c = '\t' || c = '\n' || c = '\r'

/-- Per-character escaping inside the quoted form of shell_escape_arg: only
double quote and backslash are escaped. -/
def escBodyChar (c : Char) : List Char :=
  if c = qCh then [bsCh, qCh]
  else if c = bsCh then [bsCh, bsCh]
  else [c]

def flatMapChars (f : Char → List Char) : List Char → List Char
  | [] => []
  | c :: cs => f c ++ flatMapChars f cs

/-- Model of shell_escape_arg in src/beans/command.rs, the escaper behind
AdbCommand::Multiple::get_command. -/
def shell_escape_arg (arg : String) : String :=
  if arg.data.isEmpty then ⟨[qCh, qCh]⟩
  else if !(arg.data.any escSpecialChar) then arg
  else ⟨qCh :: (flatMapChars escBodyChar arg.data ++ [qCh])⟩

/-- The character set of escape_shell_arg in src/client/adb_device.rs; the
source literal contains space, both quotes, backslash, dollar, backtick,
parentheses, braces, brackets, pipe, ampersand, semicolon, angle brackets,
question mark, asterisk and tilde, but no tab / newline / carriage return. -/
def deviceSpecialChars : List Char :=
  [' ', qCh, sqCh, bsCh, '$', btCh, '(', ')', obCh, cbCh,
   '[', ']', '|', '&', ';', '<', '>', '?', '*', '~']

/-- Per-character escaping inside the quoted form of escape_shell_arg:
double quote, backslash, dollar and backtick are escaped. -/
def deviceEscBodyChar (c : Char) : List Char :=
  if c = qCh then [bsCh, qCh]
  else if c = bsCh then [bsCh, bsCh]
  else if c = '$' then [bsCh, '$']
  else if c = btCh then [bsCh, btCh]
  else [c]

/-- Model of escape_shell_arg in src/client/adb_device.rs, used only by
AdbDevice::list2cmdline. -/
def escape_shell_arg (arg : String) : String :=
  if arg.data.isEmpty then ⟨[qCh, qCh]⟩
  else if !(arg.data.any fun c => deviceSpecialChars.contains c) then arg
  else ⟨qCh :: (flatMapChars deviceEscBodyChar arg.data ++ [qCh])⟩

/-- Model of Vec::join(" "): empty list gives the empty string, otherwise
the elements separated by single spaces. -/
def joinSpace : List String → String
  | [] => ""
  | [a] => a
  | a :: rest => a ++ " " ++ joinSpace rest

/-- Model of shell_escape_args in src/beans/command.rs: escape each argument
and join with single spaces. -/
def shell_escape_args (args : List String) : String :=
  joinSpace (args.map shell_escape_arg)

/-- Model of AdbDevice::list2cmdline. -/
def list2cmdline (args : List String) : String :=
  joinSpace (args.map escape_shell_arg)

/-!
Modelled from the spec: the "POSIX-shell tokenizer" the escape invariant of
section 8 of the spec splits with.  The repository contains no tokenizer;
this one follows the POSIX shell token-recognition rules for field
splitting: blanks separate fields, single quotes protect everything, double
quotes protect everything except that a backslash escapes a following
dollar, backtick, double quote or backslash, and an unquoted backslash
escapes the next character.  Operator characters and expansions are not
modelled.  The result is none on an unterminated quote or trailing
backslash.
-/

/-- Tokenizer mode: outside quotes (with a flag telling whether the current
field has begun, so an empty quoted field is kept), inside double quotes,
or inside single quotes. -/
inductive TokMode where
  | un (started : Bool)
  | dq
  | sq
  deriving Repr, DecidableEq

/-- The tokenizer engine: one pass over the characters, carrying the mode,
the current field and the fields already produced. -/
def tokCore : List Char → TokMode → List Char → List String → Option (List String)
  | [], .un started, cur, words => some (words ++ if started then [⟨cur⟩] else [])
  | [], .dq, _, _ => none
  | [], .sq, _, _ => none
  | c :: rest, .un started, cur, words =>
      if c = ' ' ∨ c = '\t' ∨ c = '\n' ∨ c = '\r' then
        if started then tokCore rest (.un false) [] (words ++ [⟨cur⟩])
        else tokCore rest (.un false) [] words
      else if c = qCh then tokCore rest .dq cur words
      else if c = sqCh then tokCore rest .sq cur words
      else if c = bsCh then
        match rest with
        | [] => none
        | d :: rest2 => tokCore rest2 (.un true) (cur ++ [d]) words
      else tokCore rest (.un true) (cur ++ [c]) words
  | c :: rest, .dq, cur, words =>
      if c = qCh then tokCore rest (.un true) cur words
      else if c = bsCh then
        match rest with
        | [] => none
        | d :: rest2 =>
            if d = '$' ∨ d = btCh ∨ d = qCh ∨ d = bsCh then
              tokCore rest2 .dq (cur ++ [d]) words
            else tokCore rest2 .dq (cur ++ [bsCh, d]) words
      else tokCore rest .dq (cur ++ [c]) words
  | c :: rest, .sq, cur, words =>
      if c = sqCh then tokCore rest (.un true) cur words
      else tokCore rest .sq (cur ++ [c]) words

/-- Entry point of the spec-modelled tokenizer. -/
def tokenize (s : String) : Option (List String) := tokCore s.data (.un false) [] []

/-! Device identity and transport prefix (src/client/adb_device.rs). -/

/-- Identity fields of AdbDevice: serial and transport_id (a u8 in the
source, its Display form is its decimal digits either way). -/
structure AdbDevice where
  serial : Option String
  transport_id : Option Nat
  deriving Repr, DecidableEq

/-- Model of AdbDevice::get_open_transport_prefix (Fn is appended to the
source name here).  Exactly mirrors the source branching: error only when
serial and transport_id are both None; a present transport_id always wins. -/
def get_open_transport_prefixFn (d : AdbDevice) (command : Option String) :
    Except AdbError String :=
  if d.serial = none ∧ d.transport_id = none then
    .error (.ProtocolError "TransportID and Serial Can Not Been None At Same Time")
  else
    match command with
    | some c =>
        match d.transport_id with
        | some tid => .ok ("host-transport-id:" ++ toString tid ++ ":" ++ c)
        | none => .ok ("host-serial:" ++ d.serial.getD "" ++ ":" ++ c)
    | none =>
        match d.transport_id with
        | some tid => .ok ("host-transport-id:" ++ toString tid)
        | none => .ok ("host:transport:" ++ d.serial.getD "")

/-! SYNC sub-protocol (src/client/adb_device.rs, blocking_impl and
async_impl). -/

/-- Little-endian u32 encoding, as produced by u32::to_le_bytes. -/
def le32 (n : Nat) : Bytes :=
  [n % 256, n / 256 % 256, n / 65536 % 256, n / 16777216 % 256]

/-- Model of u32::from_le_bytes composed with Vec::try_into, which requires
exactly 4 bytes. -/
def le32dec : Bytes → Option Nat
  | [a, b, c, d] => some (a + 256 * b + 65536 * c + 16777216 * d)
  | _ => none

/-- FileInfo record (src/beans/file_info.rs); mdtime keeps the raw
timestamp (chrono conversion is out of scope, it succeeds on all u32). -/
structure FileInfo where
  mode : Nat
  size : Nat
  mtime : Nat
  mdtime : Option Nat
  path : String
  deriving Repr, DecidableEq

/-- Model of parse_file_info in src/beans/file_info.rs; none models the
panic of the slice indexing on data shorter than 12 bytes. -/
def parse_file_info (data : Bytes) (path : String) : Option FileInfo :=
  if data.length < 12 then none
  else
    match le32dec (data.take 4), le32dec ((data.drop 4).take 4),
        le32dec ((data.drop 8).take 4) with
    | some mode, some size, some mtime => some ⟨mode, size, mtime, some mtime, path⟩
    | _, _, _ => none

/-- Fueled engine of the blocking AdbDevice::iter_content RECV loop.  Each
loop iteration consumes one unit of fuel; the wrapper iter_content supplies
totalLen c + 1 units, which never runs out because every iteration that
recurses first consumes at least the 4 tag bytes (the claim proofs below
only ever rely on the behaviour under a totalLen-sized fuel bound). -/
def iterContentGo : Nat → Conn → List (Except String String)
  | 0, _ => []
  | fuel + 1, c =>
    let r4 := read_string 4 c
    if r4.1 = "FAIL" then
      -- the source reads the 4-byte length and the message, logs it, and
      -- returns None, ending the iterator without yielding anything
      let rsz := recv 4 r4.2
      match le32dec rsz.1 with
      | none => []
      | some sz =>
          let _ := read_string sz rsz.2
          []
    else if r4.1 = "DONE" then []
    else if r4.1 = "DATA" then
      let rsz := recv 4 r4.2
      match le32dec rsz.1 with
      | none => []
      | some sz =>
          let rdata := read_string sz rsz.2
          .ok rdata.1 :: iterContentGo fuel rdata.2
    else []

/-- Model of the blocking AdbDevice::iter_content RECV loop (the part after
prepare_sync): the list of items the iterator yields.  The source closure
maps every non-DATA outcome to None, which ends the iterator, so a FAIL
message is read, logged and swallowed, and every yielded item is Ok. -/
def iter_content (c : Conn) : List (Except String String) :=
  iterContentGo (totalLen c + 1) c

/-- Fueled engine of the tokio_async AdbDevice::iter_content stream; same
fuel discipline as iterContentGo. -/
def iterContentAsyncGo : Nat → Conn → Option (List (Except String Bytes))
  | 0, _ => some []
  | fuel + 1, c =>
    let r4 := read_string_async 4 c
    if r4.1 = "FAIL" then
      let rsz := recv 4 r4.2
      match le32dec rsz.1 with
      | none => none
      | some sz =>
          let rmsg := read_string_async sz rsz.2
          some [.error ("Read String Error " ++ rmsg.1)]
    else if r4.1 = "DONE" then some [.error "Read Done"]
    else if r4.1 = "DATA" then
      let rsz := recv 4 r4.2
      match le32dec rsz.1 with
      | none => none
      | some sz =>
          match readExact sz rsz.2 with
          | none => some [.error "Read String Error early eof"]
          | some (b, c2) =>
              match iterContentAsyncGo fuel c2 with
              | none => none
              | some rest => some (.ok b :: rest)
    else some [.error "Read String Error "]

/-- Model of the tokio_async AdbDevice::iter_content stream: the items it
yields, as raw byte chunks.  DATA chunks are yielded Ok; a FAIL chunk yields
one trailing error wrapping the server message; reaching DONE also yields a
trailing "Read Done" error before the stream ends; an unknown tag yields
the bare "Read String Error " item.  none models a panic of the unwrap on
try_into when a 4-byte length is delivered short. -/
def iter_content_async (c : Conn) : Option (List (Except String Bytes)) :=
  iterContentAsyncGo (totalLen c + 1) c

/-- Fueled engine of the blocking AdbDevice::iter_directory LIST loop; same
fuel discipline as iterContentGo (an iteration that recurses consumes at
least the 16 header bytes). -/
def iterDirectoryGo : Nat → Conn → Option (List FileInfo)
  | 0, _ => some []
  | fuel + 1, c =>
    let r4 := read_string 4 c
    if r4.1 = "DONE" then some []
    else
      let r16 := recv 16 r4.2
      if r16.1.length < 16 then none
      else
        match le32dec ((r16.1.drop 12).take 4) with
        | none => none
        | some nameLen =>
            let rname := read_string nameLen r16.2
            match parse_file_info r16.1 rname.1 with
            | none => some []
            | some fi =>
                match iterDirectoryGo fuel rname.2 with
                | none => none
                | some rest => some (fi :: rest)

/-- Model of the blocking AdbDevice::iter_directory LIST loop: the entries
the iterator yields.  none models the panic of current_data[12..=15] when
fewer than 16 header bytes arrive in one read.  Note the source compares
the 4-byte tag only against "DONE" and decodes an entry for any other tag
(including tags that are not "DENT"); the async draft at
src/client/adb_device.rs lines 521-548 has the same shape. -/
def iter_directory (c : Conn) : Option (List FileInfo) :=
  iterDirectoryGo (totalLen c + 1) c

/-- Model of the blocking AdbDevice::pull: drain iter_content, writing each
Ok item's bytes (content.as_bytes()) to the destination file and summing
content.len() (the byte length); Err items are skipped.  Returns the final
file contents and the returned byte count. -/
def pull (c : Conn) : Bytes × Nat :=
  (iter_content c).foldl
    (fun acc item =>
      match item with
      | .ok content => (acc.1 ++ strBytes content, acc.2 + (strBytes content).length)
      | .error _ => acc)
    ([], 0)

/-- Model of the tokio_async AdbDevice::pull: the source maps the RECV
stream with a closure that would write and count, but Stream::map is lazy
and the mapped stream is immediately discarded with a wildcard let, so the
stream is never polled: nothing is written to the file and the returned
size is the initial 0. -/
def pull_async (c : Conn) : Bytes × Nat :=
  let _ := iter_content_async c
  ([], 0)

/-- Model of the blocking AdbDevice::stat receive side (after prepare_sync):
read_string(4); if the tag is "STAT", recv(12) and parse_file_info (whose
error, a 12-byte-short read included, the source surfaces); any other tag
is the "stat error" failure. -/
def stat (path : String) (c : Conn) : Except AdbError FileInfo :=
  let r4 := read_string 4 c
  if r4.1 = "STAT" then
    let r12 := recv 12 r4.2
    match parse_file_info r12.1 path with
    | some fi => .ok fi
    | none => .error (.Unknown "Parse Datetime Error")
  else .error (.Unknown "stat error")

/-! Port forwarding (src/client/adb_device.rs, blocking_impl lines 1125-1149
and async_impl lines 407-433; the two are line-for-line identical). -/

/-- ForwardItem (src/beans/forward_item.rs); the middle field is named
local in the source. -/
structure ForwardItem where
  serial : String
  localA : String
  remote : String
  deriving Repr, DecidableEq

/-- Digit-run core of str::parse::<u16>: at least one ASCII digit and the
value must fit in 16 bits. -/
def parseU16core (l : List Char) : Option Nat :=
  if l.isEmpty then none
  else if l.all fun c => c.isDigit then
    let v := l.foldl (fun acc c => acc * 10 + (c.toNat - 48)) 0
    if v ≤ 65535 then some v else none
  else none

/-- Model of str::parse::<u16>: optional leading plus sign, then digits. -/
def parseU16 (s : String) : Option Nat :=
  match s.data with
  | '+' :: rest => parseU16core rest
  | l => parseU16core l

/-- Model of extract_port_from_tcp_spec in src/client/adb_device.rs: the
source tests starts_with("tcp:") and parses the byte slice [4..]; stated
here on the character list (the 4 prefix characters are ASCII, so byte and
character offsets agree). -/
def extract_port_from_tcp_spec (tcp_spec : String) : Option Nat :=
  if "tcp:".data.isPrefixOf tcp_spec.data then parseU16 ⟨tcp_spec.data.drop 4⟩
  else none

/-- The scan inside forward_remote_port: the first forward item whose serial
and remote match and whose local spec parses as tcp:port; an item matching
serial and remote whose local does not parse is skipped. -/
def findExisting (serial remote : String) : List ForwardItem → Option Nat
  | [] => none
  | it :: rest =>
      if it.serial = serial ∧ it.remote = remote then
        match extract_port_from_tcp_spec it.localA with
        | some p => some p
        | none => findExisting serial remote rest
      else findExisting serial remote rest

/-- Model of AdbDevice::forward_remote_port.  serial is the device serial,
flist the forward_list result (none models its Err, which the source
swallows), freePort the port get_free_port would hand out.  Returns the
local port and, if a new forward is created, the forward(local, remote,
norebind) arguments it issues. -/
def forward_remote_port (serial : Option String) (flist : Option (List ForwardItem))
    (freePort : Nat) (remotePort : Nat) : Nat × Option (String × String × Bool) :=
  let remote := "tcp:" ++ toString remotePort
  let existing :=
    match serial, flist with
    | some s, some items => findExisting s remote items
    | _, _ => none
  match existing with
  | some p => (p, none)
  | none => (freePort, some ("tcp:" ++ toString freePort, remote, false))

/-! Connection lifecycle (src/client/adb_client.rs and
AdbDevice::open_transport).  Connections are modelled by the order in which
TcpStream::connect hands them out. -/

/-- Allocation state: nextConn counts the TCP connections opened so far. -/
structure World where
  nextConn : Nat
  deriving Repr, DecidableEq

/-- Model of TcpStream::connect: returns a fresh connection identifier. -/
def connectTcp (w : World) : Nat × World := (w.nextConn, ⟨w.nextConn + 1⟩)

/-- Model of the AdbClient struct: it holds a single TcpStream, opened once
by new (or default), in its stream field. -/
structure AdbClientM where
  stream : Nat
  deriving Repr, DecidableEq

/-- Model of AdbClient::new / default: one TcpStream::connect at
construction, stored in the struct. -/
def AdbClient_new (w : World) : AdbClientM × World :=
  let r := connectTcp w
  (⟨r.1⟩, r.2)

/-- Connection used by AdbClient::server_version: self.stream (the struct
field, not a fresh connection). -/
def server_version_conn (cl : AdbClientM) : Nat := cl.stream

/-- Connection used by AdbClient::list_devices: self.stream. -/
def list_devices_conn (cl : AdbClientM) : Nat := cl.stream

/-- Connection used by AdbClient::connect_device: self.stream. -/
def connect_device_conn (cl : AdbClientM) : Nat := cl.stream

/-- Connection used by AdbClient::disconnect_device: self.stream. -/
def disconnect_device_conn (cl : AdbClientM) : Nat := cl.stream

/-- Connection used by AdbClient::server_kill: self.stream. -/
def server_kill_conn (cl : AdbClientM) : Nat := cl.stream

/-- Model of AdbDevice::open_transport: every call TcpStream::connects a
fresh stream and returns it (the AdbDevice struct stores no connection). -/
def open_transport_conn (w : World) : Nat × World := connectTcp w

/-! Wire encodings of server-side SYNC RECV responses, used to state the
claims about the RECV loops. -/

/-- One DATA chunk as the server frames it: tag, little-endian length,
payload. -/
def dataChunk (b : Bytes) : Bytes := strBytes "DATA" ++ le32 b.length ++ b

/-- A full RECV response: the DATA chunks followed by a trailing frame. -/
def encodeRecv : List Bytes → Bytes → Bytes
  | [], tail => tail
  | b :: rest, tail => dataChunk b ++ encodeRecv rest tail

/-- The DONE trailer (the RECV loops never read its 8 payload bytes, so
only the tag matters here). -/
def doneTail : Bytes := strBytes "DONE"

/-- A FAIL trailer carrying a message. -/
def failTail (msg : String) : Bytes :=
  strBytes "FAIL" ++ le32 (strBytes msg).length ++ strBytes msg

/-- All bytes of a chunk are ASCII. -/
def asciiBytes (b : Bytes) : Bool := b.all fun x => x < 128

/-!
Theorems.  First a block of helper lemmas about the byte/string conversions
and the two read primitives, then one theorem per claim (with its witness or
counterexample where required).
-/

theorem utf8Bytes_ascii (c : Char) (h : c.toNat < 128) : utf8Bytes c = [c.toNat] := by
  simp [utf8Bytes]
  omega

theorem byteChar_toNat (c : Char) (h : c.toNat < 128) : byteChar c.toNat = c := by
  simp [byteChar, h]

theorem toNat_byteChar (b : Nat) (h : b < 128) : (byteChar b).toNat = b := by
  have hv : b.isValidChar := Or.inl (by omega)
  simp [byteChar, h, Char.ofNat, hv, Char.ofNatAux, Char.toNat, UInt32.toNat,
    BitVec.toNat_ofNatLt]

theorem bytesOfChars_ascii (l : List Char) (h : ∀ c ∈ l, c.toNat < 128) :
    bytesOfChars l = l.map Char.toNat := by
  induction l with
  | nil => rfl
  | cons c cs ih =>
      have hc : c.toNat < 128 := h c (by simp)
      rw [bytesOfChars, utf8Bytes_ascii c hc, ih fun x hx => h x (by simp [hx])]
      rfl

theorem strBytes_ascii (s : String) (h : isAsciiStr s = true) :
    strBytes s = s.data.map Char.toNat := by
  apply bytesOfChars_ascii
  intro c hc
  simp only [isAsciiStr, List.all_eq_true] at h
  simpa using h c hc

theorem bytesToString_strBytes (s : String) (h : isAsciiStr s = true) :
    bytesToString (strBytes s) = s := by
  rw [strBytes_ascii s h]
  simp only [isAsciiStr, List.all_eq_true] at h
  show (⟨(s.data.map Char.toNat).map byteChar⟩ : String) = s
  rw [List.map_map]
  have hmap : s.data.map (byteChar ∘ Char.toNat) = s.data := by
    have h2 : ∀ c ∈ s.data, (byteChar ∘ Char.toNat) c = id c := by
      intro c hc
      have : c.toNat < 128 := by simpa using h c hc
      simp [byteChar_toNat c this]
    rw [List.map_congr_left h2, List.map_id]
  rw [hmap]

theorem strBytes_bytesToString (b : Bytes) (h : asciiBytes b = true) :
    strBytes (bytesToString b) = b := by
  simp only [asciiBytes, List.all_eq_true] at h
  show bytesOfChars (b.map byteChar) = b
  induction b with
  | nil => rfl
  | cons x xs ih =>
      have hx : x < 128 := by simpa using h x (by simp)
      have hxc : (byteChar x).toNat < 128 := by rw [toNat_byteChar x hx]; exact hx
      simp only [List.map_cons, bytesOfChars, utf8Bytes_ascii _ hxc, toNat_byteChar x hx]
      rw [ih fun y hy => h y (by simp [hy])]
      rfl

theorem bytesToString_data_length (b : Bytes) : (bytesToString b).data.length = b.length := by
  simp [bytesToString]

theorem strBytes_length_ascii (s : String) (h : isAsciiStr s = true) :
    (strBytes s).length = s.data.length := by
  rw [strBytes_ascii s h]; simp

theorem strBytes_nil_ascii (s : String) (h : isAsciiStr s = true) (h0 : strBytes s = []) :
    s = "" := by
  rw [strBytes_ascii s h] at h0
  have : s.data = [] := by simpa using h0
  cases s
  simp at this
  simp [this]

/-! Lemmas about the read primitives. -/

theorem recv_len_le (n : Nat) (c : Conn) : (recv n c).1.length ≤ n := by
  cases c with
  | nil => simp [recv, readOnce]
  | cons chunk rest =>
      by_cases hcl : chunk.length ≤ n <;> simp [recv, readOnce, hcl]

theorem recv_totalLen (n : Nat) (c : Conn) :
    totalLen (recv n c).2 + (recv n c).1.length = totalLen c := by
  cases c with
  | nil => simp [recv, readOnce, totalLen]
  | cons chunk rest =>
      by_cases hcl : chunk.length ≤ n <;>
        simp [recv, readOnce, hcl, totalLen] <;> omega

/-- A single read on a connection returns a prefix of the first delivered
chunk: the blocking recv-based header reads consume min n (first chunk). -/
theorem recv_first_chunk (n : Nat) (chunk : Bytes) (rest : Conn) :
    (recv n (chunk :: rest)).1 = chunk.take n := by
  by_cases hcl : chunk.length ≤ n
  · simp [recv, readOnce, hcl, List.take_of_length_le hcl]
  · simp [recv, readOnce, hcl]

/-- One delivered chunk holding p followed by more bytes: a recv of
exactly p.length returns p and leaves the tail bytes as the first chunk. -/
theorem recv_append_chunk (p X : Bytes) (n : Nat) (hp : p.length = n) (hX : X ≠ []) :
    recv n [p ++ X] = (p, [X]) := by
  subst hp
  have hlen : ¬(p ++ X).length ≤ p.length := by
    simp [List.length_append]
    exact hX
  show readOnce p.length [p ++ X] = (p, [X])
  rw [readOnce, if_neg hlen, List.take_left, List.drop_left]

/-- A recv asking for at least the whole single delivered chunk returns it
and hits EOF next. -/
theorem recv_chunk_all (p : Bytes) (n : Nat) (h : p.length ≤ n) :
    recv n [p] = (p, []) := by
  simp [recv, readOnce, h]

theorem flat_cons (b : Bytes) (c : Conn) : flat (b :: c) = b ++ flat c := by
  simp [flat]

theorem flat_nil : flat [] = ([] : Bytes) := rfl

theorem totalLen_eq_flat_length (c : Conn) : totalLen c = (flat c).length := by
  induction c with
  | nil => rfl
  | cons b rest ih => simp [totalLen, flat_cons, ih]

/-- read_exact consumes exactly n bytes of the flattened stream whenever
that many are deliverable, regardless of how the peer chunks them. -/
theorem readExact_flat (c : Conn) : ∀ n, n ≤ totalLen c →
    ∃ b c2, readExact n c = some (b, c2) ∧ b = (flat c).take n ∧
      flat c2 = (flat c).drop n := by
  induction c with
  | nil =>
      intro n hn
      have : n = 0 := by simpa [totalLen] using hn
      subst this
      exact ⟨[], [], by simp [readExact], by simp [flat_nil], by simp [flat_nil]⟩
  | cons chunk rest ih =>
      intro n hn
      cases n with
      | zero => exact ⟨[], chunk :: rest, by simp [readExact], by simp, by simp⟩
      | succ m =>
          by_cases hcl : chunk.length ≤ m + 1
          · have hrest : m + 1 - chunk.length ≤ totalLen rest := by
              simp [totalLen] at hn; omega
            obtain ⟨b, c2, hb, hbv, hc2⟩ := ih (m + 1 - chunk.length) hrest
            refine ⟨chunk ++ b, c2, ?_, ?_, ?_⟩
            · simp only [readExact, if_pos hcl, hb]
            · rw [hbv, flat_cons, List.take_append_eq_append_take,
                List.take_of_length_le hcl]
            · rw [hc2, flat_cons, List.drop_append_eq_append_drop,
                List.drop_eq_nil_of_le hcl]
              simp
          · refine ⟨chunk.take (m + 1), chunk.drop (m + 1) :: rest, ?_, ?_, ?_⟩
            · simp only [readExact, if_neg hcl]
            · rw [flat_cons, List.take_append_eq_append_take]
              have : m + 1 - chunk.length = 0 := by omega
              simp [this]
            · rw [flat_cons, flat_cons, List.drop_append_eq_append_drop]
              have : m + 1 - chunk.length = 0 := by omega
              simp [this]

/-- read_exact of p.length on one delivered chunk p ++ X returns exactly p. -/
theorem readExact_append_chunk (p X : Bytes) (hX : X ≠ []) :
    readExact p.length [p ++ X] = some (p, [X]) := by
  cases hp : p.length with
  | zero =>
      have : p = [] := List.length_eq_zero.mp hp
      subst this
      simp [readExact]
  | succ m =>
      have hlen : ¬(p ++ X).length ≤ m + 1 := by
        simp [List.length_append, hp]
        exact hX
      simp only [readExact, if_neg hlen]
      rw [List.take_left' hp, List.drop_left' hp]

/-- read_exact of the whole single delivered chunk. -/
theorem readExact_whole (p : Bytes) (hp : 0 < p.length) :
    readExact p.length [p] = some (p, []) := by
  obtain ⟨m, hm⟩ : ∃ m, p.length = m + 1 := ⟨p.length - 1, by omega⟩
  rw [hm]
  simp only [readExact, if_pos (le_of_eq hm)]
  simp [hm, readExact]

/-- read_exact n on a first chunk of exactly n bytes. -/
theorem readExact_len_cons (chunk : Bytes) (rest : Conn) (n : Nat)
    (h : chunk.length = n) (hn : 0 < n) :
    readExact n (chunk :: rest) = some (chunk, rest) := by
  subst h
  obtain ⟨m, hm⟩ : ∃ m, chunk.length = m + 1 := ⟨chunk.length - 1, by omega⟩
  rw [hm]
  simp only [readExact, if_pos (le_of_eq hm)]
  simp [hm, readExact]

/-- C5: the transport-selector prefix is chosen as the spec table dictates:
serial "S" with no transport_id and sub-command get-state gives
host-serial:S:get-state; transport_id 7 with get-state gives
host-transport-id:7:get-state; serial only and no sub-command gives
host:transport:S; transport_id only and no sub-command gives
host-transport-id:7 (shown for every serial s and transport id t). -/
theorem C5_transport_prefix_selection (s : String) (t : Nat) :
    get_open_transport_prefixFn ⟨some s, none⟩ (some "get-state") =
      .ok ("host-serial:" ++ s ++ ":get-state") ∧
    get_open_transport_prefixFn ⟨none, some t⟩ (some "get-state") =
      .ok ("host-transport-id:" ++ toString t ++ ":get-state") ∧
    get_open_transport_prefixFn ⟨some s, none⟩ none = .ok ("host:transport:" ++ s) ∧
    get_open_transport_prefixFn ⟨none, some t⟩ none =
      .ok ("host-transport-id:" ++ toString t) := by
  refine ⟨?_, ?_, ?_, ?_⟩ <;> simp [get_open_transport_prefixFn] <;>
    rw [String.append_assoc] <;> congr 1

/-- C10: get_open_transport_prefix errors exactly when serial and
transport_id are both None, and when both are set the transport_id form is
chosen with the serial ignored, for every optional sub-command. -/
theorem C10_prefix_error_iff_and_both_set :
    (∀ (d : AdbDevice) (cmd : Option String),
      (∃ e, get_open_transport_prefixFn d cmd = .error e) ↔
        (d.serial = none ∧ d.transport_id = none)) ∧
    (∀ (s : String) (t : Nat) (cmd : Option String),
      get_open_transport_prefixFn ⟨some s, some t⟩ cmd =
        get_open_transport_prefixFn ⟨none, some t⟩ cmd) := by
  constructor
  · intro d cmd
    obtain ⟨ser, tid⟩ := d
    cases ser <;> cases tid <;> cases cmd <;>
      simp [get_open_transport_prefixFn]
  · intro s t cmd
    cases cmd <;> simp [get_open_transport_prefixFn]

/-- C8 counterexample: on a fresh client both server_version and
list_devices use the very same connection (the stream opened once at
AdbClient::new), so a host-scope command does not own a connection opened
for that operation alone. -/
theorem C8_connection_reuse_counterexample :
    server_version_conn (AdbClient_new ⟨0⟩).1 = 0 ∧
    list_devices_conn (AdbClient_new ⟨0⟩).1 = 0 ∧
    server_version_conn (AdbClient_new ⟨0⟩).1 =
      list_devices_conn (AdbClient_new ⟨0⟩).1 := by
  refine ⟨rfl, rfl, rfl⟩

/-- C8 amended: device operations open a fresh TCP connection per
open_transport call (successive calls use distinct, newly allocated
connections), while the five host-scope commands of AdbClient all reuse the
single stream stored in the struct at construction. -/
theorem C8_connection_lifecycle_amended (w : World) (cl : AdbClientM) :
    (open_transport_conn w).1 = w.nextConn ∧
    ((open_transport_conn w).2).nextConn = w.nextConn + 1 ∧
    (open_transport_conn (open_transport_conn w).2).1 ≠ (open_transport_conn w).1 ∧
    (AdbClient_new w).1.stream = w.nextConn ∧
    server_version_conn cl = cl.stream ∧
    list_devices_conn cl = cl.stream ∧
    connect_device_conn cl = cl.stream ∧
    disconnect_device_conn cl = cl.stream ∧
    server_kill_conn cl = cl.stream := by
  refine ⟨rfl, rfl, ?_, rfl, rfl, rfl, rfl, rfl, rfl⟩
  simp [open_transport_conn, connectTcp]

/-- C1 counterexample: on a FAIL status the blocking facade returns a
NetworkError, not the command-failed error the claim requires, and on an
unknown status the async facade returns CommandFailed rather than a
protocol error. -/
theorem C1_status_error_kind_counterexample :
    send_cmd_then_check_okay "host:version"
        [strBytes "FAIL" ++ strBytes "0002" ++ strBytes "no"] =
      .error (.NetworkError "no") ∧
    send_cmd_then_check_okay "host:version"
        [strBytes "FAIL" ++ strBytes "0002" ++ strBytes "no"] ≠
      .error (.CommandFailed "host:version" "no") ∧
    send_cmd_then_check_okay "host:version" [strBytes "XXXX"] =
      .error (.ParseError "Unexpected response") ∧
    send_cmd_then_check_okay_async "host:version" [strBytes "XXXX"] =
      .error (.CommandFailed "host:version" "Unexpected response") := by
  refine ⟨by decide, by decide, by decide, by decide⟩

theorem parse_length_prefixFn_strBytes (lenStr : String) (v : Nat)
    (hl : isAsciiStr lenStr = true) (hl4 : lenStr.data.length = 4)
    (hparse : parseRadix16 lenStr = some v) :
    parse_length_prefixFn (strBytes lenStr) = .ok v := by
  have hL : (strBytes lenStr).length = 4 := by rw [strBytes_length_ascii lenStr hl, hl4]
  simp only [parse_length_prefixFn]
  rw [if_neg (by omega), List.take_of_length_le (le_of_eq hL),
    bytesToString_strBytes lenStr hl, hparse]

/-- A well-formed length-prefixed message frame delivered in one chunk is
decoded verbatim by both read_response implementations. -/
theorem read_response_frame (lenStr msg : String)
    (hl : isAsciiStr lenStr = true) (hm : isAsciiStr msg = true)
    (hl4 : lenStr.data.length = 4)
    (hparse : parseRadix16 lenStr = some (strBytes msg).length) :
    read_response [strBytes lenStr ++ strBytes msg] = .ok (msg, []) ∧
    read_response_async [strBytes lenStr ++ strBytes msg] = .ok (msg, []) := by
  have hL : (strBytes lenStr).length = 4 := by rw [strBytes_length_ascii lenStr hl, hl4]
  have hLpos : 0 < (strBytes lenStr).length := by omega
  have hplp := parse_length_prefixFn_strBytes lenStr (strBytes msg).length hl hl4 hparse
  by_cases hM : strBytes msg = []
  · have hmsg0 : msg = "" := strBytes_nil_ascii msg hm hM
    subst hmsg0
    rw [hM, List.append_nil]
    constructor
    · simp only [read_response]
      rw [show recv 4 [strBytes lenStr] = (strBytes lenStr, []) from
        recv_chunk_all _ 4 (le_of_eq hL)]
      simp only [hplp, hM]
      rfl
    · simp only [read_response_async]
      rw [show readExact 4 [strBytes lenStr] = some (strBytes lenStr, []) by
        rw [← hL]; exact readExact_whole _ hLpos]
      simp only [hplp, hM]
      rfl
  · have hMpos : 0 < (strBytes msg).length := List.length_pos.2 hM
    constructor
    · simp only [read_response]
      rw [recv_append_chunk _ _ 4 hL hM]
      simp only [hplp]
      rw [readExact_whole _ hMpos]
      simp [bytesToString_strBytes msg hm]
    · simp only [read_response_async]
      rw [show readExact 4 [strBytes lenStr ++ strBytes msg] =
          some (strBytes lenStr, [strBytes msg]) by
        rw [← hL]; exact readExact_append_chunk _ _ hM]
      simp only [hplp]
      rw [readExact_whole _ hMpos]
      simp [bytesToString_strBytes msg hm]

/-- C1 amended: exactly 4 status bytes are read (via read_exact, in both
facades); OKAY succeeds; FAIL reads one length-prefixed message m and the
operation fails, the blocking facade returning a network-error carrying m
and the async facade a command-failed error carrying m; any other 4 status
bytes make the blocking facade return a parse-error "Unexpected response"
and the async facade a command-failed error with reason
"Unexpected response". -/
theorem C1_status_check_amended (cmd lenStr msg : String) (rest : Conn)
    (hl : isAsciiStr lenStr = true) (hm : isAsciiStr msg = true)
    (hl4 : lenStr.data.length = 4)
    (hparse : parseRadix16 lenStr = some (strBytes msg).length) :
    send_cmd_then_check_okay cmd (strBytes "OKAY" :: rest) = .ok rest ∧
    send_cmd_then_check_okay_async cmd (strBytes "OKAY" :: rest) = .ok rest ∧
    send_cmd_then_check_okay cmd
        [strBytes "FAIL" ++ (strBytes lenStr ++ strBytes msg)] =
      .error (.NetworkError msg) ∧
    send_cmd_then_check_okay_async cmd
        [strBytes "FAIL" ++ (strBytes lenStr ++ strBytes msg)] =
      .error (.CommandFailed cmd msg) ∧
    (∀ status : Bytes, status.length = 4 → status ≠ strBytes "OKAY" →
      status ≠ strBytes "FAIL" →
      send_cmd_then_check_okay cmd (status :: rest) =
        .error (.ParseError "Unexpected response") ∧
      send_cmd_then_check_okay_async cmd (status :: rest) =
        .error (.CommandFailed cmd "Unexpected response")) := by
  have hokay : readExact 4 (strBytes "OKAY" :: rest) = some (strBytes "OKAY", rest) :=
    readExact_len_cons _ rest 4 (by decide) (by decide)
  have hX : strBytes lenStr ++ strBytes msg ≠ [] := by
    intro h0
    have h1 : strBytes lenStr = [] := (List.append_eq_nil.mp h0).1
    have h2 : (strBytes lenStr).length = 4 := by
      rw [strBytes_length_ascii lenStr hl, hl4]
    rw [h1] at h2
    simp at h2
  have hfail : readExact 4 [strBytes "FAIL" ++ (strBytes lenStr ++ strBytes msg)] =
      some (strBytes "FAIL", [strBytes lenStr ++ strBytes msg]) := by
    rw [show (4 : Nat) = (strBytes "FAIL").length from by decide]
    exact readExact_append_chunk _ _ hX
  have hframe := read_response_frame lenStr msg hl hm hl4 hparse
  have hFO : strBytes "FAIL" ≠ strBytes "OKAY" := by decide
  refine ⟨?_, ?_, ?_, ?_, ?_⟩
  · simp [send_cmd_then_check_okay, hokay]
  · simp [send_cmd_then_check_okay_async, hokay]
  · simp [send_cmd_then_check_okay, hfail, hFO, hframe.1]
  · simp [send_cmd_then_check_okay_async, hfail, hFO, hframe.2]
  · intro status h4 hok hfl
    have hst : readExact 4 (status :: rest) = some (status, rest) :=
      readExact_len_cons _ rest 4 h4 (by decide)
    constructor
    · simp [send_cmd_then_check_okay, hst, hok, hfl]
    · simp [send_cmd_then_check_okay_async, hst, hok, hfl]

/-- Witness for C1_status_check_amended at a concrete command, length,
message and status word. -/
theorem C1_status_check_amended_witness :
    send_cmd_then_check_okay "host:version" (strBytes "OKAY" :: []) = .ok [] ∧
    send_cmd_then_check_okay "host:version"
        [strBytes "FAIL" ++ (strBytes "0002" ++ strBytes "no")] =
      .error (.NetworkError "no") ∧
    send_cmd_then_check_okay_async "host:version"
        [strBytes "FAIL" ++ (strBytes "0002" ++ strBytes "no")] =
      .error (.CommandFailed "host:version" "no") ∧
    send_cmd_then_check_okay "host:version" (strBytes "XXXX" :: []) =
      .error (.ParseError "Unexpected response") := by
  have h := C1_status_check_amended "host:version" "0002" "no" []
    (by decide) (by decide) (by decide) (by decide)
  exact ⟨h.1, h.2.2.1, h.2.2.2.1,
    (h.2.2.2.2 (strBytes "XXXX") (by decide) (by decide) (by decide)).1⟩

/-- C2 counterexample: the Multiple-command escaper
(shell_escape_arg, src/beans/command.rs) passes a dollar-containing
argument through verbatim instead of quoting and escaping it, and the
device-side escape_shell_arg passes a tab-containing argument verbatim, so
tokenizing its joined output splits the argument in two. -/
theorem C2_escape_counterexample :
    shell_escape_arg "$x" = "$x" ∧
    shell_escape_arg "$x" ≠ ⟨[qCh, bsCh, '$', 'x', qCh]⟩ ∧
    escape_shell_arg ⟨['a', '\t', 'b']⟩ = ⟨['a', '\t', 'b']⟩ ∧
    tokenize (list2cmdline [⟨['a', '\t', 'b']⟩]) = some ["a", "b"] ∧
    (["a", "b"] : List String) ≠ [⟨['a', '\t', 'b']⟩] := by
  refine ⟨by decide, by decide, by decide, by decide, by decide⟩

/-- C3: the spec scenario (DATA abc, DATA de, DONE).  The blocking pull
writes abcde and returns 5 as the claim states, but the async pull maps the
RECV stream lazily, never polls it, writes nothing and returns 0. -/
theorem C3_pull_async_bug :
    pull [encodeRecv [strBytes "abc", strBytes "de"] doneTail] =
      (strBytes "abcde", 5) ∧
    pull_async [encodeRecv [strBytes "abc", strBytes "de"] doneTail] = ([], 0) ∧
    (([], 0) : Bytes × Nat) ≠ (strBytes "abcde", 5) := by
  refine ⟨by decide, rfl, by decide⟩

/-- C6: the LIST loop decodes an entry for any tag other than DONE: a
bogus FAIL tag is decoded into a FileInfo exactly as a DENT tag is, instead
of failing with a protocol error. -/
theorem C6_list_accepts_any_tag :
    iter_directory
        [strBytes "FAIL" ++ (le32 493 ++ le32 0 ++ le32 1710556393 ++ le32 7) ++
          strBytes ".studio" ++ strBytes "DONE"] =
      some [⟨493, 0, 1710556393, some 1710556393, ".studio"⟩] ∧
    iter_directory
        [strBytes "DENT" ++ (le32 493 ++ le32 0 ++ le32 1710556393 ++ le32 7) ++
          strBytes ".studio" ++ strBytes "DONE"] =
      some [⟨493, 0, 1710556393, some 1710556393, ".studio"⟩] := by
  refine ⟨by decide, by decide⟩

/-- C7 counterexample: when the peer delivers the 4 header bytes in two
2-byte pieces, the recv-based header reads (the blocking length prefix,
and the SYNC tag reads via read_string) consume only the first piece. -/
theorem C7_short_read_counterexample :
    totalLen [strBytes "DO", strBytes "NE"] = 4 ∧
    (recv 4 [strBytes "DO", strBytes "NE"]).1 = strBytes "DO" ∧
    (recv 4 [strBytes "DO", strBytes "NE"]).1.length = 2 ∧
    (read_string 4 [strBytes "DO", strBytes "NE"]).1 = "DO" := by
  refine ⟨by decide, by decide, by decide, by decide⟩

/-- C7 amended: the read_exact based header reads (the 4-byte status word
in both facades, the async length prefix) consume exactly 4 bytes of the
stream whatever the chunking, whenever 4 bytes are deliverable; the
recv-based header reads (the blocking ASCII length prefix, the SYNC tag and
little-endian length reads) issue one read() and return only a prefix of
the first delivered chunk, so they consume exactly 4 bytes only when the
first delivery holds at least 4. -/
theorem C7_header_reads_amended (c : Conn) (h : 4 ≤ totalLen c) :
    (∃ b c2, readExact 4 c = some (b, c2) ∧ b.length = 4 ∧
      b = (flat c).take 4 ∧ flat c2 = (flat c).drop 4) ∧
    (∀ chunk rest, (recv 4 (chunk :: rest)).1 = chunk.take 4) := by
  constructor
  · obtain ⟨b, c2, hb, hbv, hc2⟩ := readExact_flat c 4 h
    refine ⟨b, c2, hb, ?_, hbv, hc2⟩
    rw [hbv, List.length_take]
    rw [totalLen_eq_flat_length] at h
    omega
  · intro chunk rest
    exact recv_first_chunk 4 chunk rest

/-- Witness for C7_header_reads_amended on a single-chunk OKAY delivery. -/
theorem C7_header_reads_amended_witness :
    4 ≤ totalLen [strBytes "OKAY"] ∧
    ((∃ b c2, readExact 4 [strBytes "OKAY"] = some (b, c2) ∧ b.length = 4 ∧
        b = (flat [strBytes "OKAY"]).take 4 ∧
        flat c2 = (flat [strBytes "OKAY"]).drop 4) ∧
      (∀ chunk rest, (recv 4 (chunk :: rest)).1 = chunk.take 4)) :=
  ⟨by decide, C7_header_reads_amended [strBytes "OKAY"] (by decide)⟩

/-! Lemmas for the RECV loop claims (C3 and C4). -/

theorem le32dec_le32 (n : Nat) (h : n < 4294967296) : le32dec (le32 n) = some n := by
  simp [le32, le32dec]
  omega

theorem le32_length (n : Nat) : (le32 n).length = 4 := by simp [le32]

theorem encodeRecv_ne_nil (chunks : List Bytes) (tailB : Bytes) (ht : tailB ≠ []) :
    encodeRecv chunks tailB ≠ [] := by
  cases chunks with
  | nil => simpa [encodeRecv] using ht
  | cons b rest =>
      intro h0
      have h1 :=
        (List.append_eq_nil.mp (List.append_eq_nil.mp (List.append_eq_nil.mp h0).1).1).1
      exact (by decide : strBytes "DATA" ≠ []) h1

/-- One DATA frame step of the blocking RECV loop. -/
theorem iterGo_data_step (fuel : Nat) (b rb : Bytes)
    (h32 : b.length < 4294967296) (hrb : rb ≠ []) :
    iterContentGo (fuel + 1) [dataChunk b ++ rb] =
      .ok (bytesToString b) :: iterContentGo fuel [rb] := by
  have htag : recv 4 [dataChunk b ++ rb] =
      (strBytes "DATA", [le32 b.length ++ (b ++ rb)]) := by
    have := recv_append_chunk (strBytes "DATA") (le32 b.length ++ (b ++ rb)) 4
      (by decide) (by simp [le32])
    simpa [dataChunk, List.append_assoc] using this
  have hsz : recv 4 [le32 b.length ++ (b ++ rb)] =
      (le32 b.length, [b ++ rb]) := by
    refine recv_append_chunk _ _ 4 (le32_length _) ?_
    simp [hrb]
  have hbody : recv b.length [b ++ rb] = (b, [rb]) :=
    recv_append_chunk b rb b.length rfl hrb
  simp only [iterContentGo, read_string, htag, hsz, hbody]
  rw [show bytesToString (strBytes "DATA") = "DATA" from by decide]
  simp [le32dec_le32 _ h32, hbody]

/-- The FAIL trailer makes the blocking RECV loop end without yielding. -/
theorem iterGo_failTail (fuel : Nat) (hf : 0 < fuel) (msg : String) :
    iterContentGo fuel [failTail msg] = [] := by
  obtain ⟨g, rfl⟩ : ∃ g, fuel = g + 1 := ⟨fuel - 1, by omega⟩
  have htag : recv 4 [failTail msg] =
      (strBytes "FAIL", [le32 (strBytes msg).length ++ strBytes msg]) := by
    have := recv_append_chunk (strBytes "FAIL")
      (le32 (strBytes msg).length ++ strBytes msg) 4 (by decide) (by simp [le32])
    simpa [failTail, List.append_assoc] using this
  simp only [iterContentGo, read_string, htag]
  rw [show bytesToString (strBytes "FAIL") = "FAIL" from by decide]
  simp
  cases le32dec (recv 4 [le32 (strBytes msg).length ++ strBytes msg]).1 <;> simp

/-- The DONE trailer ends the blocking RECV loop. -/
theorem iterGo_doneTail (fuel : Nat) (hf : 0 < fuel) :
    iterContentGo fuel [doneTail] = [] := by
  obtain ⟨g, rfl⟩ : ∃ g, fuel = g + 1 := ⟨fuel - 1, by omega⟩
  have htag : recv 4 [doneTail] = (strBytes "DONE", []) :=
    recv_chunk_all _ 4 (by decide)
  simp only [iterContentGo, read_string, htag]
  rw [show bytesToString (strBytes "DONE") = "DONE" from by decide]
  simp [show ("DONE" : String) ≠ "FAIL" from by decide]

/-- Unfolds the blocking RECV loop over any sequence of DATA chunks with at
least one fuel unit left for the trailer. -/
theorem iterGo_encode (chunks : List Bytes) (tailB : Bytes)
    (h32 : ∀ b ∈ chunks, b.length < 4294967296) (ht : tailB ≠ []) :
    ∀ f, chunks.length < f →
      iterContentGo f [encodeRecv chunks tailB] =
        chunks.map (fun b => Except.ok (bytesToString b)) ++
          iterContentGo (f - chunks.length) [tailB] := by
  induction chunks with
  | nil => intro f hf; simp [encodeRecv]
  | cons b rest ih =>
      intro f hf
      obtain ⟨g, rfl⟩ : ∃ g, f = g + 1 := ⟨f - 1, by omega⟩
      have henc : encodeRecv rest tailB ≠ [] := encodeRecv_ne_nil rest tailB ht
      rw [show encodeRecv (b :: rest) tailB = dataChunk b ++ encodeRecv rest tailB
        from rfl]
      rw [iterGo_data_step g b _ (h32 b (by simp)) henc]
      rw [ih (fun x hx => h32 x (by simp [hx])) g (by simpa using hf)]
      simp [Nat.succ_sub_succ]

theorem read_string_async_chunk (p X : Bytes) (n : Nat) (hp : p.length = n)
    (hX : X ≠ []) :
    read_string_async n [p ++ X] = (bytesToString p, [X]) := by
  subst hp
  have h := recv_append_chunk p X p.length rfl hX
  simp [read_string_async, h]

theorem read_string_async_exact (p : Bytes) (n : Nat) (hp : p.length = n) :
    read_string_async n [p] = (bytesToString p, []) := by
  subst hp
  have h := recv_chunk_all p p.length (le_refl _)
  simp [read_string_async, h]

/-- One DATA frame step of the async RECV loop. -/
theorem iterAsyncGo_data_step (fuel : Nat) (b rb : Bytes)
    (h32 : b.length < 4294967296) (hrb : rb ≠ []) :
    iterContentAsyncGo (fuel + 1) [dataChunk b ++ rb] =
      match iterContentAsyncGo fuel [rb] with
      | none => none
      | some rest => some (.ok b :: rest) := by
  have htag : read_string_async 4 [dataChunk b ++ rb] =
      ("DATA", [le32 b.length ++ (b ++ rb)]) := by
    have := read_string_async_chunk (strBytes "DATA") (le32 b.length ++ (b ++ rb)) 4
      (by decide) (by simp [le32])
    simpa [dataChunk, List.append_assoc,
      show bytesToString (strBytes "DATA") = "DATA" from by decide] using this
  have hsz : recv 4 [le32 b.length ++ (b ++ rb)] = (le32 b.length, [b ++ rb]) :=
    recv_append_chunk _ _ 4 (le32_length _) (by simp [hrb])
  have hbody : readExact b.length [b ++ rb] = some (b, [rb]) :=
    readExact_append_chunk b rb hrb
  simp only [iterContentAsyncGo, htag, hsz, hbody]
  simp [le32dec_le32 _ h32, hbody, show ("DATA" : String) ≠ "FAIL" from by decide,
    show ("DATA" : String) ≠ "DONE" from by decide]

/-- The FAIL trailer makes the async RECV loop yield exactly one trailing
error wrapping the message. -/
theorem iterAsyncGo_failTail (fuel : Nat) (hf : 0 < fuel) (msg : String)
    (hm : isAsciiStr msg = true) (h32 : (strBytes msg).length < 4294967296) :
    iterContentAsyncGo fuel [failTail msg] =
      some [.error ("Read String Error " ++ msg)] := by
  obtain ⟨g, rfl⟩ : ∃ g, fuel = g + 1 := ⟨fuel - 1, by omega⟩
  have htag : read_string_async 4 [failTail msg] =
      ("FAIL", [le32 (strBytes msg).length ++ strBytes msg]) := by
    have := read_string_async_chunk (strBytes "FAIL")
      (le32 (strBytes msg).length ++ strBytes msg) 4 (by decide) (by simp [le32])
    simpa [failTail, List.append_assoc,
      show bytesToString (strBytes "FAIL") = "FAIL" from by decide] using this
  by_cases hM : strBytes msg = []
  · have hmsg0 : msg = "" := strBytes_nil_ascii msg hm hM
    subst hmsg0
    simp only [iterContentAsyncGo, htag, if_true]
    decide
  · have hsz : recv 4 [le32 (strBytes msg).length ++ strBytes msg] =
        (le32 (strBytes msg).length, [strBytes msg]) :=
      recv_append_chunk _ _ 4 (le32_length _) hM
    have hbody : read_string_async (strBytes msg).length [strBytes msg] =
        (msg, []) := by
      have := read_string_async_exact (strBytes msg) (strBytes msg).length rfl
      rwa [bytesToString_strBytes msg hm] at this
    simp only [iterContentAsyncGo, htag, hsz, hbody]
    simp [le32dec_le32 _ h32, hbody]

/-- The DONE trailer makes the async RECV loop yield its spurious trailing
Read Done error. -/
theorem iterAsyncGo_doneTail (fuel : Nat) (hf : 0 < fuel) :
    iterContentAsyncGo fuel [doneTail] = some [.error "Read Done"] := by
  obtain ⟨g, rfl⟩ : ∃ g, fuel = g + 1 := ⟨fuel - 1, by omega⟩
  have htag : read_string_async 4 [doneTail] = ("DONE", []) := by
    have := read_string_async_exact (strBytes "DONE") 4 (by decide)
    simpa [doneTail, show bytesToString (strBytes "DONE") = "DONE" from by decide]
      using this
  simp only [iterContentAsyncGo, htag]
  simp [show ("DONE" : String) ≠ "FAIL" from by decide]

/-- Unfolds the async RECV loop over any sequence of DATA chunks. -/
theorem iterAsyncGo_encode (chunks : List Bytes) (tailB : Bytes)
    (h32 : ∀ b ∈ chunks, b.length < 4294967296) (ht : tailB ≠ []) :
    ∀ f, chunks.length < f →
      iterContentAsyncGo f [encodeRecv chunks tailB] =
        match iterContentAsyncGo (f - chunks.length) [tailB] with
        | none => none
        | some rest => some (chunks.map Except.ok ++ rest) := by
  induction chunks with
  | nil =>
      intro f hf
      simp only [encodeRecv, List.length_nil, Nat.sub_zero, List.map_nil,
        List.nil_append]
      cases iterContentAsyncGo f [tailB] <;> simp
  | cons b rest ih =>
      intro f hf
      obtain ⟨g, rfl⟩ : ∃ g, f = g + 1 := ⟨f - 1, by omega⟩
      have henc : encodeRecv rest tailB ≠ [] := encodeRecv_ne_nil rest tailB ht
      rw [show encodeRecv (b :: rest) tailB = dataChunk b ++ encodeRecv rest tailB
        from rfl]
      rw [iterAsyncGo_data_step g b _ (h32 b (by simp)) henc]
      rw [ih (fun x hx => h32 x (by simp [hx])) g (by simpa using hf)]
      have harith : g + 1 - (b :: rest).length = g - rest.length := by
        simp [Nat.succ_sub_succ]
      rw [harith]
      cases iterContentAsyncGo (g - rest.length) [tailB] <;> simp

theorem failTail_ne_nil (msg : String) : failTail msg ≠ [] := by
  intro h0
  exact (by decide : strBytes "FAIL" ≠ [])
    (List.append_eq_nil.mp (List.append_eq_nil.mp h0).1).1

theorem encodeRecv_length (chunks : List Bytes) (tailB : Bytes) :
    chunks.length ≤ (encodeRecv chunks tailB).length := by
  induction chunks with
  | nil => simp [encodeRecv]
  | cons b rest ih =>
      simp [encodeRecv, dataChunk, List.length_append,
        show (strBytes "DATA").length = 4 from by decide]
      omega

/-- C4 amended: on a RECV stream of DATA chunks followed by FAIL with
message m, the blocking iter_content yields each chunk (lossy-decoded to a
string) and then ends without yielding any error (the FAIL message is read
and only logged), while the async iter_content yields each chunk as bytes
and then exactly one trailing error whose message is
"Read String Error " ++ m, and then ends. -/
theorem C4_iter_content_fail_amended (chunks : List Bytes) (msg : String)
    (h32 : ∀ b ∈ chunks, b.length < 4294967296)
    (hm : isAsciiStr msg = true) (hm32 : (strBytes msg).length < 4294967296) :
    iter_content [encodeRecv chunks (failTail msg)] =
      chunks.map (fun b => Except.ok (bytesToString b)) ∧
    iter_content_async [encodeRecv chunks (failTail msg)] =
      some (chunks.map Except.ok ++ [.error ("Read String Error " ++ msg)]) := by
  have ht := failTail_ne_nil msg
  have hlen := encodeRecv_length chunks (failTail msg)
  have htl : chunks.length < totalLen [encodeRecv chunks (failTail msg)] + 1 := by
    simp [totalLen]
    omega
  have hpos : 0 < totalLen [encodeRecv chunks (failTail msg)] + 1 - chunks.length := by
    simp [totalLen]
    omega
  constructor
  · show iterContentGo (totalLen [encodeRecv chunks (failTail msg)] + 1)
      [encodeRecv chunks (failTail msg)] = _
    rw [iterGo_encode chunks (failTail msg) h32 ht _ htl,
      iterGo_failTail _ hpos msg]
    simp
  · show iterContentAsyncGo (totalLen [encodeRecv chunks (failTail msg)] + 1)
      [encodeRecv chunks (failTail msg)] = _
    rw [iterAsyncGo_encode chunks (failTail msg) h32 ht _ htl,
      iterAsyncGo_failTail _ hpos msg hm hm32]

/-- Witness for C4_iter_content_fail_amended at the spec scenario (one DATA
chunk ok, then FAIL not allowed). -/
theorem C4_iter_content_fail_amended_witness :
    iter_content [encodeRecv [strBytes "ok"] (failTail "not allowed")] =
      [Except.ok "ok"] ∧
    iter_content_async [encodeRecv [strBytes "ok"] (failTail "not allowed")] =
      some [Except.ok (strBytes "ok"),
        Except.error "Read String Error not allowed"] := by
  have h := C4_iter_content_fail_amended [strBytes "ok"] "not allowed"
    (by decide) (by decide) (by decide)
  exact ⟨h.1.trans (by decide), h.2.trans (by decide)⟩

/-- C4 counterexample: on the spec scenario the blocking iter_content yields
the ok chunk and then ends with no error item at all, so the claimed
trailing error carrying the FAIL message is never yielded. -/
theorem C4_fail_swallowed_counterexample :
    iter_content [encodeRecv [strBytes "ok"] (failTail "not allowed")] =
      [Except.ok "ok"] ∧
    (¬ ∃ e, Except.error e ∈
      iter_content [encodeRecv [strBytes "ok"] (failTail "not allowed")]) := by
  refine ⟨by decide, ?_⟩
  rintro ⟨e, he⟩
  rw [show iter_content [encodeRecv [strBytes "ok"] (failTail "not allowed")] =
    [Except.ok "ok"] from by decide] at he
  simp at he

/-! C9: forward_remote_port. -/

/-- C9: with serial set, if the forward list holds an item matching the
device serial and remote tcp:r whose local parses as tcp:p, the first such
item's port is returned and no forward command is issued; otherwise the
freshly allocated free port fp is returned after issuing
forward("tcp:fp", "tcp:r", false). -/
theorem C9_forward_remote_port (s : String) (rp fp : Nat)
    (items : List ForwardItem) :
    ((findExisting s ("tcp:" ++ toString rp) items).isSome ↔
      ∃ it, it ∈ items ∧ it.serial = s ∧ it.remote = "tcp:" ++ toString rp ∧
        (extract_port_from_tcp_spec it.localA).isSome) ∧
    (∀ p, findExisting s ("tcp:" ++ toString rp) items = some p →
      forward_remote_port (some s) (some items) fp rp = (p, none)) ∧
    (findExisting s ("tcp:" ++ toString rp) items = none →
      forward_remote_port (some s) (some items) fp rp =
        (fp, some ("tcp:" ++ toString fp, "tcp:" ++ toString rp, false))) := by
  refine ⟨?_, ?_, ?_⟩
  · induction items with
    | nil => simp [findExisting]
    | cons it rest ih =>
        by_cases hmatch : it.serial = s ∧ it.remote = "tcp:" ++ toString rp
        · cases hloc : extract_port_from_tcp_spec it.localA with
          | none =>
              simp only [findExisting, if_pos hmatch, hloc]
              rw [ih]
              constructor
              · rintro ⟨x, hx, h1, h2, h3⟩
                exact ⟨x, by simp [hx], h1, h2, h3⟩
              · rintro ⟨x, hx, h1, h2, h3⟩
                rcases List.mem_cons.mp hx with hx1 | hx2
                · subst hx1
                  rw [hloc] at h3
                  simp at h3
                · exact ⟨x, hx2, h1, h2, h3⟩
          | some p =>
              simp only [findExisting, if_pos hmatch, hloc]
              constructor
              · intro _
                exact ⟨it, by simp, hmatch.1, hmatch.2, by simp [hloc]⟩
              · intro _
                simp
        · simp only [findExisting, if_neg hmatch]
          rw [ih]
          constructor
          · rintro ⟨x, hx, h1, h2, h3⟩
            exact ⟨x, by simp [hx], h1, h2, h3⟩
          · rintro ⟨x, hx, h1, h2, h3⟩
            rcases List.mem_cons.mp hx with hx1 | hx2
            · subst hx1
              exact absurd ⟨h1, h2⟩ hmatch
            · exact ⟨x, hx2, h1, h2, h3⟩
  · intro p hp
    simp [forward_remote_port, hp]
  · intro hnone
    simp [forward_remote_port, hnone]

/-- Witness for C9_forward_remote_port: the spec reuse scenario, where the
existing forward ("S", "tcp:41000", "tcp:9000") is found and 41000 is
returned with no new forward issued. -/
theorem C9_forward_remote_port_witness :
    forward_remote_port (some "S") (some [⟨"S", "tcp:41000", "tcp:9000"⟩])
      40000 9000 = (41000, none) :=
  (C9_forward_remote_port "S" 9000 40000 [⟨"S", "tcp:41000", "tcp:9000"⟩]).2.1
    41000 (by decide)

/-! C2: the escape round trip. -/

theorem mk_data (a : String) : (⟨a.data⟩ : String) = a := rfl

theorem escSpecialChar_false (c : Char) (h : escSpecialChar c = false) :
    ¬(c = ' ' ∨ c = '\t' ∨ c = '\n' ∨ c = '\r') ∧ c ≠ qCh ∧ c ≠ sqCh ∧ c ≠ bsCh := by
  simp [escSpecialChar] at h
  refine ⟨?_, ?_, ?_, ?_⟩
  · rintro (hx | hx | hx | hx) <;> simp_all
  · simp_all
  · simp_all
  · simp_all

theorem tokUn_step_space (X : List Char) (cur : List Char) (words : List String) :
    tokCore (' ' :: X) (.un true) cur words =
      tokCore X (.un false) [] (words ++ [⟨cur⟩]) := by
  rw [tokCore.eq_def]
  simp

theorem tokUn_step_quote (X : List Char) (b : Bool) (cur : List Char)
    (words : List String) :
    tokCore (qCh :: X) (.un b) cur words = tokCore X .dq cur words := by
  rw [tokCore.eq_def]
  simp [show ¬(qCh = ' ' ∨ qCh = '\t' ∨ qCh = '\n' ∨ qCh = '\r') from by decide]

theorem tokUn_step_plain (c : Char) (X : List Char) (b : Bool) (cur : List Char)
    (words : List String) (h1 : ¬(c = ' ' ∨ c = '\t' ∨ c = '\n' ∨ c = '\r'))
    (h2 : c ≠ qCh) (h3 : c ≠ sqCh) (h4 : c ≠ bsCh) :
    tokCore (c :: X) (.un b) cur words = tokCore X (.un true) (cur ++ [c]) words := by
  rw [tokCore.eq_def]
  simp [h1, h2, h3, h4]

theorem tokDq_step_close (X : List Char) (cur : List Char) (words : List String) :
    tokCore (qCh :: X) .dq cur words = tokCore X (.un true) cur words := by
  rw [tokCore.eq_def]
  simp

theorem tokDq_step_escq (X : List Char) (cur : List Char) (words : List String) :
    tokCore (bsCh :: qCh :: X) .dq cur words =
      tokCore X .dq (cur ++ [qCh]) words := by
  rw [tokCore.eq_def]
  simp [show bsCh ≠ qCh from by decide,
    show (qCh = '$' ∨ qCh = btCh ∨ qCh = qCh ∨ qCh = bsCh) from by decide]

theorem tokDq_step_escbs (X : List Char) (cur : List Char) (words : List String) :
    tokCore (bsCh :: bsCh :: X) .dq cur words =
      tokCore X .dq (cur ++ [bsCh]) words := by
  rw [tokCore.eq_def]
  simp [show bsCh ≠ qCh from by decide,
    show (bsCh = '$' ∨ bsCh = btCh ∨ bsCh = qCh ∨ bsCh = bsCh) from by decide]

theorem tokDq_step_plain (c : Char) (X : List Char) (cur : List Char)
    (words : List String) (h2 : c ≠ qCh) (h4 : c ≠ bsCh) :
    tokCore (c :: X) .dq cur words = tokCore X .dq (cur ++ [c]) words := by
  rw [tokCore.eq_def]
  simp [h2, h4]

/-- Consuming a run of non-special characters in the unquoted state. -/
theorem tokCore_plain (w : List Char) (hw : ∀ c ∈ w, escSpecialChar c = false) :
    ∀ rest b cur words,
      tokCore (w ++ rest) (.un b) cur words =
        tokCore rest (.un (b || !w.isEmpty)) (cur ++ w) words := by
  induction w with
  | nil => intro rest b cur words; simp
  | cons c w ih =>
      intro rest b cur words
      obtain ⟨h1, h2, h3, h4⟩ := escSpecialChar_false c (hw c (by simp))
      rw [List.cons_append, tokUn_step_plain c (w ++ rest) b cur words h1 h2 h3 h4]
      rw [ih (fun x hx => hw x (by simp [hx])) rest true (cur ++ [c]) words]
      simp

/-- Consuming the escaped body of a quoted argument in the double-quote
state. -/
theorem tokCore_escBody (body : List Char) :
    ∀ rest cur words,
      tokCore (flatMapChars escBodyChar body ++ rest) .dq cur words =
        tokCore rest .dq (cur ++ body) words := by
  induction body with
  | nil => intro rest cur words; simp [flatMapChars]
  | cons c body ih =>
      intro rest cur words
      by_cases hq : c = qCh
      · subst hq
        rw [show flatMapChars escBodyChar (qCh :: body) =
            [bsCh, qCh] ++ flatMapChars escBodyChar body from by
          simp [flatMapChars, escBodyChar]]
        rw [List.append_assoc]
        rw [show ([bsCh, qCh] : List Char) ++ (flatMapChars escBodyChar body ++ rest) =
          bsCh :: qCh :: (flatMapChars escBodyChar body ++ rest) from rfl]
        rw [tokDq_step_escq, ih rest (cur ++ [qCh]) words]
        simp
      · by_cases hb : c = bsCh
        · subst hb
          rw [show flatMapChars escBodyChar (bsCh :: body) =
              [bsCh, bsCh] ++ flatMapChars escBodyChar body from by
            simp [flatMapChars, escBodyChar, show bsCh ≠ qCh from by decide]]
          rw [List.append_assoc]
          rw [show ([bsCh, bsCh] : List Char) ++ (flatMapChars escBodyChar body ++ rest) =
            bsCh :: bsCh :: (flatMapChars escBodyChar body ++ rest) from rfl]
          rw [tokDq_step_escbs, ih rest (cur ++ [bsCh]) words]
          simp
        · rw [show flatMapChars escBodyChar (c :: body) =
              c :: flatMapChars escBodyChar body from by
            simp [flatMapChars, escBodyChar, hq, hb]]
          rw [List.cons_append, tokDq_step_plain c _ cur words hq hb]
          rw [ih rest (cur ++ [c]) words]
          simp

/-- Tokenizing one escaped argument from a fresh field position appends the
original characters to the current (empty) field. -/
theorem tok_escWord (a : String) (rest : List Char) (words : List String) :
    tokCore ((shell_escape_arg a).data ++ rest) (.un false) [] words =
      tokCore rest (.un true) a.data words := by
  by_cases h0 : a.data.isEmpty
  · have ha : a.data = [] := by simpa using h0
    rw [show shell_escape_arg a = ⟨[qCh, qCh]⟩ from by simp [shell_escape_arg, h0]]
    rw [show ((⟨[qCh, qCh]⟩ : String).data ++ rest) = qCh :: qCh :: rest from rfl]
    rw [tokUn_step_quote, tokDq_step_close, ha]
  · by_cases hany : a.data.any escSpecialChar
    · rw [show shell_escape_arg a =
          ⟨qCh :: (flatMapChars escBodyChar a.data ++ [qCh])⟩ from by
        simp [shell_escape_arg, h0, hany]]
      rw [show ((⟨qCh :: (flatMapChars escBodyChar a.data ++ [qCh])⟩ : String).data ++ rest) =
        qCh :: ((flatMapChars escBodyChar a.data ++ [qCh]) ++ rest) from rfl]
      rw [tokUn_step_quote, List.append_assoc]
      rw [show ([qCh] : List Char) ++ rest = qCh :: rest from rfl]
      rw [tokCore_escBody a.data (qCh :: rest) [] words]
      rw [tokDq_step_close]
      simp
    · rw [show shell_escape_arg a = a from by simp [shell_escape_arg, h0, hany]]
      have hplain : ∀ c ∈ a.data, escSpecialChar c = false := by
        intro c hc
        have := (List.any_eq_false).mp (by simpa using hany)
        simpa using this c hc
      rw [tokCore_plain a.data hplain rest false [] words]
      have : a.data.isEmpty = false := by simpa using h0
      simp [this]

/-- Tokenizing the space-joined escaped arguments recovers them all. -/
theorem tok_joinWords (args : List String) :
    ∀ words, args ≠ [] →
      tokCore (joinSpace (args.map shell_escape_arg)).data (.un false) [] words =
        some (words ++ args) := by
  induction args with
  | nil => intro words h; exact absurd rfl h
  | cons a rest ih =>
      intro words _
      cases rest with
      | nil =>
          show tokCore (shell_escape_arg a).data (.un false) [] words = _
          rw [show (shell_escape_arg a).data = (shell_escape_arg a).data ++ []
            from (List.append_nil _).symm]
          rw [tok_escWord a [] words]
          show some (words ++ [(⟨a.data⟩ : String)]) = some (words ++ [a])
          rw [mk_data]
      | cons b rest2 =>
          show tokCore (shell_escape_arg a ++ " " ++
              joinSpace ((b :: rest2).map shell_escape_arg)).data
            (.un false) [] words = _
          rw [String.data_append, String.data_append, List.append_assoc]
          rw [show (" " : String).data ++
              (joinSpace ((b :: rest2).map shell_escape_arg)).data =
            ' ' :: (joinSpace ((b :: rest2).map shell_escape_arg)).data from rfl]
          rw [tok_escWord, tokUn_step_space, mk_data]
          rw [ih (words ++ [a]) (by simp)]
          simp

/-- C2 amended: the Multiple-command escaper (shell_escape_arg in
src/beans/command.rs) maps the empty string to a pair of double quotes,
passes an argument verbatim exactly when it contains none of space, tab,
newline, carriage return, double quote, single quote, backslash (dollar,
backtick, parentheses, braces, brackets, pipe, ampersand, semicolon, angle
brackets, question mark, asterisk and tilde do not trigger quoting and are
not escaped), and otherwise wraps the argument in double quotes escaping
only the double quote and the backslash; splitting the joined escaped
output with a POSIX-shell field tokenizer (quote and backslash aware; shell
operators and expansions not modelled) reproduces the original argument
vector. -/
theorem C2_escape_amended (args : List String) (arg : String)
    (hne : arg.data ≠ []) (hplain : arg.data.any escSpecialChar = false) :
    shell_escape_arg "" = ⟨[qCh, qCh]⟩ ∧
    shell_escape_arg arg = arg ∧
    tokenize (shell_escape_args args) = some args := by
  refine ⟨by decide, ?_, ?_⟩
  · have h0 : arg.data.isEmpty = false := by
      simp [List.isEmpty_iff]
      exact hne
    simp [shell_escape_arg, h0, hplain]
  · cases args with
    | nil => rfl
    | cons a rest =>
        show tokCore (joinSpace ((a :: rest).map shell_escape_arg)).data
          (.un false) [] [] = _
        simpa using tok_joinWords (a :: rest) [] (by simp)

/-- Witness for C2_escape_amended at the spec examples. -/
theorem C2_escape_amended_witness :
    shell_escape_arg "" = ⟨[qCh, qCh]⟩ ∧
    shell_escape_arg "echo" = "echo" ∧
    tokenize (shell_escape_args ["echo", "hello world"]) =
      some ["echo", "hello world"] := by
  have h := C2_escape_amended ["echo", "hello world"] "echo" (by decide) (by decide)
  exact ⟨h.1, h.2.1, h.2.2⟩

end Radb
